import Mathlib

/-!
Verification of the TronHash odd/even/size analytics core.

Shallow embedding of the repository's algorithmic core:
  * `src/types.ts` — the data model (`BlockData`, `IntervalRule`, `GridCell`);
  * `src/utils/helpers.ts` — the two grid builders `calculateTrendGrid`
    and `calculateBeadGrid`;
  * the `DragonList` component — rule alignment (`checkAlignment`),
    leading-run streak detection (`calculateStreak` / `calcRowStreak`),
    row partitioning, threshold filtering and the final descending sort.

JavaScript numbers that only ever hold non-negative integers (block heights,
result digits, row counts, streak counts) are modelled as `Nat`; JavaScript
array sorts with a numeric comparator are modelled as the stable `mergeSort`
on the corresponding key (ES2019 `Array.prototype.sort` is stable, and so is
`List.mergeSort`).
-/

namespace TronHash

/-- Classification labels.  `src/types.ts` has `BlockType = 'ODD' | 'EVEN'`
and `SizeType = 'BIG' | 'SMALL'`; both grids and dragons treat them as one
string-typed value space, so we merge them into a single inductive. -/
inductive Label where
  | ODD
  | EVEN
  | BIG
  | SMALL
deriving DecidableEq, Repr

/-- `BlockData` from `src/types.ts`.  The `hash` and `timestamp` fields are
never read by any algorithm in scope, so they are omitted from the
embedding; `type` and `sizeType` are the two classification axes. -/
structure BlockData where
  height : Nat
  resultValue : Nat
  type : Label
  sizeType : Label
deriving DecidableEq, Repr

/-- `IntervalRule` from `src/types.ts`.  `dragonThreshold?: number` is an
optional field, modelled as `Option Nat` (with `some 0` standing for an
explicit falsy `0`). `trendRows` is never read by the dragon computation and
is omitted. -/
structure IntervalRule where
  id : String
  label : String
  value : Nat
  startBlock : Nat
  beadRows : Nat
  dragonThreshold : Option Nat
deriving DecidableEq, Repr

/-- `GridCell` from `src/types.ts`: `type: BlockType | SizeType | null` and
optional `value?: number`.  A cell literal `{ type: null }` leaves `value`
undefined, hence `none`. -/
structure GridCell where
  type : Option Label
  value : Option Nat
deriving DecidableEq, Repr

/-- The empty grid cell `{ type: null }`. -/
def emptyCell : GridCell := { type := none, value := none }

/-- The two classification axes: the TypeScript key strings
`'type' | 'sizeType'` used to index into a `BlockData`. -/
inductive Axis where
  | parity
  | size
deriving DecidableEq, Repr

/-- `b[key]` for `key : 'type' | 'sizeType'`. -/
def axisKey : Axis → BlockData → Label
  | Axis.parity, b => b.type
  | Axis.size, b => b.sizeType

/-- `[...blocks].sort((a, b) => a.height - b.height)` — ascending by height. -/
def sortAscHeight (blocks : List BlockData) : List BlockData :=
  blocks.mergeSort (fun a b => a.height ≤ b.height)

/-- `.sort((a, b) => b.height - a.height)` — descending by height. -/
def sortDescHeight (blocks : List BlockData) : List BlockData :=
  blocks.mergeSort (fun a b => b.height ≤ a.height)

/-- `checkAlignment` from the `DragonList` component:

```js
const checkAlignment = (height: number) => {
  if (rule.value <= 1) return true;
  if (rule.startBlock > 0) {
    return height >= rule.startBlock && (height - rule.startBlock) % rule.value === 0;
  }
  return height % rule.value === 0;
};
```

Truncated `Nat` subtraction agrees with JS subtraction on the only branch
where it is evaluated (`height ≥ rule.startBlock` short-circuits first). -/
def checkAlignment (rule : IntervalRule) (height : Nat) : Bool :=
  if rule.value ≤ 1 then true
  else if rule.startBlock > 0 then
    decide (height ≥ rule.startBlock) && decide ((height - rule.startBlock) % rule.value = 0)
  else decide (height % rule.value = 0)

/-- The populated cell built from a block:
`{ type: block[typeKey], value: block.resultValue }`. -/
def cellOf (typeKey : Axis) (block : BlockData) : GridCell :=
  { type := some (axisKey typeKey block), value := some block.resultValue }

/-- `while (currentColumn.length < rows) currentColumn.push({ type: null })`. -/
def padColumn (rows : Nat) (col : List GridCell) : List GridCell :=
  col ++ List.replicate (rows - col.length) emptyCell

/-- The mutable state of the `chronological.forEach` walk in
`calculateTrendGrid`: the closed columns, the open column buffer, and the
running classification value (`null` before the first block). -/
structure TrendState where
  columns : List (List GridCell)
  currentColumn : List GridCell
  lastVal : Option Label
deriving Repr

/-- One iteration of the `forEach` body in `calculateTrendGrid`
(`src/utils/helpers.ts`, lines 121–134): close (pad and append) the open
column when the value changes or the column is full, then push the current
block's cell onto the open column. -/
def trendStep (typeKey : Axis) (rows : Nat) (s : TrendState) (block : BlockData) :
    TrendState :=
  let currentVal := axisKey typeKey block
  let s' :=
    if some currentVal ≠ s.lastVal ∨ rows ≤ s.currentColumn.length then
      { columns :=
          if s.currentColumn.length > 0 then s.columns ++ [padColumn rows s.currentColumn]
          else s.columns
        currentColumn := []
        lastVal := some currentVal }
    else s
  { s' with currentColumn := s'.currentColumn ++ [cellOf typeKey block] }

/-- `calculateTrendGrid` from `src/utils/helpers.ts` (lines 109–149): Big
Road layout.  Empty input short-circuits to 24 empty columns; otherwise sort
ascending by height, walk with `trendStep`, close the trailing column, and
pad the grid to at least 24 columns. -/
def calculateTrendGrid (blocks : List BlockData) (typeKey : Axis) (rows : Nat) :
    List (List GridCell) :=
  if blocks.length = 0 then List.replicate 24 (List.replicate rows emptyCell)
  else
    let chronological := sortAscHeight blocks
    let final := chronological.foldl (trendStep typeKey rows) ⟨[], [], none⟩
    let columns :=
      if final.currentColumn.length > 0 then final.columns ++ [padColumn rows final.currentColumn]
      else final.columns
    columns ++ List.replicate (24 - columns.length) (List.replicate rows emptyCell)

/-- `calculateBeadGrid` from `src/utils/helpers.ts` (lines 155–181): Bead
Road layout.  `Math.ceil(totalItems / rows)` is `(totalItems + rows - 1) / rows`
for `rows ≥ 1` (the only case the app produces); position `(c, r)` holds the
block at flat index `c * rows + r` when it exists, else an empty cell.
`lookupCell` is the loop body: `index < totalItems` yields the populated
cell of `chronological[index]`, else the empty cell (the out-of-range
lookup returning `none` is exactly `index ≥ totalItems`). -/
def lookupCell (typeKey : Axis) (chronological : List BlockData) (index : Nat) : GridCell :=
  match chronological[index]? with
  | some block => cellOf typeKey block
  | none => emptyCell

def calculateBeadGrid (blocks : List BlockData) (typeKey : Axis) (rows : Nat) :
    List (List GridCell) :=
  let minCols := 24
  let chronological := sortAscHeight blocks
  let totalItems := chronological.length
  let numCols := max minCols ((totalItems + rows - 1) / rows)
  (List.range numCols).map (fun c =>
    (List.range rows).map (fun r => lookupCell typeKey chronological (c * rows + r)))

/-- `const threshold = rule.dragonThreshold || 3;` — a falsy threshold
(absent, or `0`) defaults to `3`. -/
def thresholdOf (rule : IntervalRule) : Nat :=
  match rule.dragonThreshold with
  | some t => if t = 0 then 3 else t
  | none => 3

/-- `const rows = rule.beadRows || 6;` — a falsy `beadRows` defaults to `6`. -/
def rowsOf (rule : IntervalRule) : Nat :=
  if rule.beadRows = 0 then 6 else rule.beadRows

/-- The streak loop shared by `calculateStreak` and `calcRowStreak`: with
`firstVal = l[0][key]` already read off, count forward while elements match,
stop at the first mismatch.  The `for … break` loop is exactly a
`takeWhile` length. -/
def streakCount (key : Axis) (firstVal : Label) (l : List BlockData) : Nat :=
  (l.takeWhile (fun b => axisKey key b == firstVal)).length

/-- `calculateStreak` (DragonList lines 46–54) = `calcRowStreak` (lines
96–104): read `firstVal = l[0][key]`, then count the leading run.  The code
only ever calls this on a non-empty list (guarded by the empty checks);
the empty case returns `none`. -/
def calculateStreak (key : Axis) : List BlockData → Option (Label × Nat)
  | [] => none
  | first :: rest =>
    some (axisKey key first, streakCount key (axisKey key first) (first :: rest))

/-- `DragonInfo` from the `DragonList` component.  `type: 'parity' | 'size'`
is the axis; `value` and `color` are the fixed presentation strings. -/
structure DragonInfo where
  ruleName : String
  type : Axis
  value : String
  count : Nat
  color : String
  threshold : Nat
  nextHeight : Nat
  rowId : Option Nat
deriving DecidableEq, Repr

/-- Parity display value: `pStreak.value === 'ODD' ? '单' : '双'`. -/
def parityValueStr (v : Label) : String := if v = Label.ODD then "单" else "双"

/-- Parity display color. -/
def parityColorStr (v : Label) : String :=
  if v = Label.ODD then "var(--color-odd)" else "var(--color-even)"

/-- Size display value: `sStreak.value === 'BIG' ? '大' : '小'`. -/
def sizeValueStr (v : Label) : String := if v = Label.BIG then "大" else "小"

/-- Size display color. -/
def sizeColorStr (v : Label) : String :=
  if v = Label.BIG then "var(--color-big)" else "var(--color-small)"

/-- `allBlocks.filter(b => checkAlignment(b.height)).sort((a, b) => b.height - a.height)`
— the rule's aligned set, latest first. -/
def alignedDesc (allBlocks : List BlockData) (rule : IntervalRule) : List BlockData :=
  sortDescHeight (allBlocks.filter (fun b => checkAlignment rule b.height))

/-- The inner loop `for (let i = r; i < total; i += rows)` starting at the
head of its argument: take the head, skip the next `step - 1` elements,
repeat.  `rowItems` for row `r` is `stride rows (chrono.drop r)`. -/
def stride (step : Nat) : List BlockData → List BlockData
  | [] => []
  | x :: xs => x :: stride step (xs.drop (step - 1))
termination_by l => l.length
decreasing_by simp only [List.length_cons, List.length_drop]; omega

/-- `rowItems` for row `r` (DragonList lines 88–91): the elements of
`chrono` at indices `r, r + rows, r + 2*rows, …` in order. -/
def rowItemsOf (chrono : List BlockData) (rows r : Nat) : List BlockData :=
  stride rows (chrono.drop r)

/-- The body of the `for (let r = 0; r < rows; r++)` loop (DragonList lines
87–134): build `rowItems`, `continue` when empty, reverse to latest-first,
compute both row streaks and emit the row dragons that meet the threshold. -/
def rowDragonsOf (rule : IntervalRule) (threshold rows : Nat)
    (chrono : List BlockData) (r : Nat) : List DragonInfo :=
  match (rowItemsOf chrono rows r).reverse with
  | [] => []
  | first :: rest =>
    let rowLatest := first :: rest
    let rpVal := axisKey Axis.parity first
    let rpCount := streakCount Axis.parity rpVal rowLatest
    let rsVal := axisKey Axis.size first
    let rsCount := streakCount Axis.size rsVal rowLatest
    let rowNextHeight := first.height + rule.value * rows
    (if rpCount ≥ threshold then
      [{ ruleName := rule.label, type := Axis.parity, value := parityValueStr rpVal
         count := rpCount, color := parityColorStr rpVal, threshold := threshold
         nextHeight := rowNextHeight, rowId := some (r + 1) }]
    else []) ++
    (if rsCount ≥ threshold then
      [{ ruleName := rule.label, type := Axis.size, value := sizeValueStr rsVal
         count := rsCount, color := sizeColorStr rsVal, threshold := threshold
         nextHeight := rowNextHeight, rowId := some (r + 1) }]
    else [])

/-- The per-rule body of `rules.forEach` in `DragonList`: the pair of lists
this rule pushes onto `trendResults` and `beadResults`.  An empty aligned
set returns early with no contribution. -/
def processRule (allBlocks : List BlockData) (rule : IntervalRule) :
    List DragonInfo × List DragonInfo :=
  match alignedDesc allBlocks rule with
  | [] => ([], [])
  | first :: rest =>
    let filtered := first :: rest
    let threshold := thresholdOf rule
    let latestHeight := first.height
    let nextHeight := latestHeight + rule.value
    let pVal := axisKey Axis.parity first
    let pCount := streakCount Axis.parity pVal filtered
    let sVal := axisKey Axis.size first
    let sCount := streakCount Axis.size sVal filtered
    let trend :=
      (if pCount ≥ threshold then
        [{ ruleName := rule.label, type := Axis.parity, value := parityValueStr pVal
           count := pCount, color := parityColorStr pVal, threshold := threshold
           nextHeight := nextHeight, rowId := none }]
      else []) ++
      (if sCount ≥ threshold then
        [{ ruleName := rule.label, type := Axis.size, value := sizeValueStr sVal
           count := sCount, color := sizeColorStr sVal, threshold := threshold
           nextHeight := nextHeight, rowId := none }]
      else [])
    let rows := rowsOf rule
    let chrono := sortAscHeight filtered
    let bead := ((List.range rows).map (rowDragonsOf rule threshold rows chrono)).flatten
    (trend, bead)

/-- `.sort((a, b) => b.count - a.count)` — descending by streak count. -/
def sortByCountDesc (l : List DragonInfo) : List DragonInfo :=
  l.mergeSort (fun a b => b.count ≤ a.count)

/-- The whole `useMemo` computation of `DragonList` (lines 22–141):
short-circuit on empty input, accumulate every rule's trend and bead
contributions in rule order, then sort both lists descending by count. -/
def computeDragons (allBlocks : List BlockData) (rules : List IntervalRule) :
    List DragonInfo × List DragonInfo :=
  if allBlocks.length = 0 then ([], [])
  else
    let pairs := rules.map (processRule allBlocks)
    let trendResults := (pairs.map Prod.fst).flatten
    let beadResults := (pairs.map Prod.snd).flatten
    (sortByCountDesc trendResults, sortByCountDesc beadResults)

/-! ## Generic helper lemmas -/

/-- Length, members, and first failure of a `takeWhile`: the counted prefix
satisfies the predicate pointwise and the element just past it (if any)
fails it. -/
theorem takeWhile_length_spec {α : Type} (p : α → Bool) (l : List α) :
    (l.takeWhile p).length ≤ l.length ∧
    (∀ i (h2 : i < l.length), i < (l.takeWhile p).length → p (l.get ⟨i, h2⟩) = true) ∧
    (∀ h : (l.takeWhile p).length < l.length, p (l.get ⟨(l.takeWhile p).length, h⟩) = false) := by
  induction l with
  | nil => simp
  | cons x xs ih =>
    by_cases hx : p x = true
    · simp only [List.takeWhile_cons, hx, if_true, List.length_cons]
      refine ⟨by omega, ?_, ?_⟩
      · intro i h2 hi
        match i with
        | 0 => simpa using hx
        | Nat.succ j =>
          simp only [List.get_cons_succ]
          exact ih.2.1 j (by simpa using h2) (by simpa using hi)
      · intro h
        simpa using ih.2.2 (by simpa using h)
    · simp only [List.takeWhile_cons, hx, if_false, List.length_nil]
      refine ⟨by simp, by simp, ?_⟩
      intro h
      simpa using hx

/-! ## C3 — the leading-run detector -/

/-- C3: on every non-empty sequence and either axis, `calculateStreak`
(= `calcRowStreak`) returns the first element's classification together
with a count in `[1, length]`; each of the first `count` elements carries
that value and the element at index `count`, when it exists, differs. -/
theorem calculateStreak_spec (key : Axis) (first : BlockData) (rest : List BlockData) :
    ∃ v count, calculateStreak key (first :: rest) = some (v, count) ∧
      v = axisKey key first ∧
      1 ≤ count ∧ count ≤ (first :: rest).length ∧
      (∀ i (h2 : i < (first :: rest).length), i < count →
        axisKey key ((first :: rest).get ⟨i, h2⟩) = v) ∧
      (∀ h : count < (first :: rest).length,
        axisKey key ((first :: rest).get ⟨count, h⟩) ≠ v) := by
  refine ⟨axisKey key first, streakCount key (axisKey key first) (first :: rest),
    rfl, rfl, ?_, ?_, ?_, ?_⟩
  · show 1 ≤ (List.takeWhile _ (first :: rest)).length
    rw [List.takeWhile_cons]
    simp
  · exact (takeWhile_length_spec _ _).1
  · intro i h2 hi
    have := (takeWhile_length_spec (fun b => axisKey key b == axisKey key first)
      (first :: rest)).2.1 i h2 hi
    simpa using this
  · intro h
    have hf := (takeWhile_length_spec (fun b => axisKey key b == axisKey key first)
      (first :: rest)).2.2 h
    exact ne_of_beq_false hf

/-- Witness for C3 at a concrete three-element sequence. -/
theorem calculateStreak_spec_witness :
    ∃ v count,
      calculateStreak Axis.parity
        (⟨7, 3, Label.ODD, Label.SMALL⟩ ::
          [⟨6, 1, Label.ODD, Label.SMALL⟩, ⟨5, 2, Label.EVEN, Label.SMALL⟩]) =
        some (v, count) ∧
      v = axisKey Axis.parity ⟨7, 3, Label.ODD, Label.SMALL⟩ ∧
      1 ≤ count ∧ count ≤ 3 ∧
      (∀ i (h2 : i < 3), i < count →
        axisKey Axis.parity
          ((⟨7, 3, Label.ODD, Label.SMALL⟩ ::
            [⟨6, 1, Label.ODD, Label.SMALL⟩, ⟨5, 2, Label.EVEN, Label.SMALL⟩]).get
              ⟨i, h2⟩) = v) ∧
      (∀ h : count < 3,
        axisKey Axis.parity
          ((⟨7, 3, Label.ODD, Label.SMALL⟩ ::
            [⟨6, 1, Label.ODD, Label.SMALL⟩, ⟨5, 2, Label.EVEN, Label.SMALL⟩]).get
              ⟨count, h⟩) ≠ v) :=
  calculateStreak_spec Axis.parity ⟨7, 3, Label.ODD, Label.SMALL⟩
    [⟨6, 1, Label.ODD, Label.SMALL⟩, ⟨5, 2, Label.EVEN, Label.SMALL⟩]

/-! ## C4 — the alignment predicate -/

/-- C4: `checkAlignment` keeps height `h` exactly under the spec's
three-branch condition, and with `startBlock = 0` and step `v > 1` the
aligned blocks of any input are exactly those whose height `v` divides. -/
theorem checkAlignment_spec (rule : IntervalRule) (h : Nat) (blocks : List BlockData) :
    (checkAlignment rule h = true ↔
      (rule.value ≤ 1 ∨
       (1 < rule.value ∧ 0 < rule.startBlock ∧ rule.startBlock ≤ h ∧
         (h - rule.startBlock) % rule.value = 0) ∨
       (1 < rule.value ∧ rule.startBlock = 0 ∧ h % rule.value = 0))) ∧
    (rule.startBlock = 0 → 1 < rule.value →
      blocks.filter (fun b => checkAlignment rule b.height) =
        blocks.filter (fun b => decide (rule.value ∣ b.height))) := by
  constructor
  · unfold checkAlignment
    by_cases h1 : rule.value ≤ 1
    · simp [h1]
    · by_cases h2 : rule.startBlock > 0 <;> simp [h1, h2] <;> omega
  · intro hsb hv
    apply List.filter_congr
    intro b _
    unfold checkAlignment
    have h1 : ¬ rule.value ≤ 1 := by omega
    simp only [h1, if_false, hsb, gt_iff_lt, lt_self_iff_false, decide_eq_decide]
    exact Nat.dvd_iff_mod_eq_zero.symm

/-- Witness for C4 at a concrete rule, height and block list. -/
theorem checkAlignment_spec_witness :
    (checkAlignment ⟨"r", "R", 3, 0, 6, none⟩ 9 = true ↔
      ((3 : Nat) ≤ 1 ∨
       (1 < 3 ∧ 0 < (0 : Nat) ∧ (0 : Nat) ≤ 9 ∧ (9 - 0) % 3 = 0) ∨
       ((1 : Nat) < 3 ∧ (0 : Nat) = 0 ∧ 9 % 3 = 0))) ∧
    ((0 : Nat) = 0 → (1 : Nat) < 3 →
      ([⟨9, 1, Label.ODD, Label.SMALL⟩, ⟨10, 2, Label.EVEN, Label.SMALL⟩] :
          List BlockData).filter
          (fun b => checkAlignment ⟨"r", "R", 3, 0, 6, none⟩ b.height) =
        ([⟨9, 1, Label.ODD, Label.SMALL⟩, ⟨10, 2, Label.EVEN, Label.SMALL⟩] :
          List BlockData).filter (fun b => decide ((3 : Nat) ∣ b.height))) :=
  checkAlignment_spec ⟨"r", "R", 3, 0, 6, none⟩ 9
    [⟨9, 1, Label.ODD, Label.SMALL⟩, ⟨10, 2, Label.EVEN, Label.SMALL⟩]

/-! ## Equation lemmas and sorting facts -/

/-- A rule with an empty aligned set returns early with no contribution. -/
theorem processRule_nil (allBlocks : List BlockData) (rule : IntervalRule)
    (h : alignedDesc allBlocks rule = []) : processRule allBlocks rule = ([], []) := by
  unfold processRule
  rw [h]

/-- The explicit value of `processRule` on a non-empty aligned set. -/
theorem processRule_cons (allBlocks : List BlockData) (rule : IntervalRule)
    (first : BlockData) (rest : List BlockData)
    (h : alignedDesc allBlocks rule = first :: rest) :
    processRule allBlocks rule =
      ((if streakCount Axis.parity (axisKey Axis.parity first) (first :: rest) ≥
            thresholdOf rule then
          [{ ruleName := rule.label, type := Axis.parity
             value := parityValueStr (axisKey Axis.parity first)
             count := streakCount Axis.parity (axisKey Axis.parity first) (first :: rest)
             color := parityColorStr (axisKey Axis.parity first)
             threshold := thresholdOf rule
             nextHeight := first.height + rule.value, rowId := none }]
        else []) ++
       (if streakCount Axis.size (axisKey Axis.size first) (first :: rest) ≥
            thresholdOf rule then
          [{ ruleName := rule.label, type := Axis.size
             value := sizeValueStr (axisKey Axis.size first)
             count := streakCount Axis.size (axisKey Axis.size first) (first :: rest)
             color := sizeColorStr (axisKey Axis.size first)
             threshold := thresholdOf rule
             nextHeight := first.height + rule.value, rowId := none }]
        else []),
       ((List.range (rowsOf rule)).map
         (rowDragonsOf rule (thresholdOf rule) (rowsOf rule)
           (sortAscHeight (first :: rest)))).flatten) := by
  unfold processRule
  rw [h]

/-- The explicit value of `rowDragonsOf` on a non-empty reversed row. -/
theorem rowDragonsOf_cons (rule : IntervalRule) (threshold rows : Nat)
    (chrono : List BlockData) (r : Nat) (first : BlockData) (rest : List BlockData)
    (h : (rowItemsOf chrono rows r).reverse = first :: rest) :
    rowDragonsOf rule threshold rows chrono r =
      (if streakCount Axis.parity (axisKey Axis.parity first) (first :: rest) ≥ threshold then
        [{ ruleName := rule.label, type := Axis.parity
           value := parityValueStr (axisKey Axis.parity first)
           count := streakCount Axis.parity (axisKey Axis.parity first) (first :: rest)
           color := parityColorStr (axisKey Axis.parity first)
           threshold := threshold
           nextHeight := first.height + rule.value * rows, rowId := some (r + 1) }]
      else []) ++
      (if streakCount Axis.size (axisKey Axis.size first) (first :: rest) ≥ threshold then
        [{ ruleName := rule.label, type := Axis.size
           value := sizeValueStr (axisKey Axis.size first)
           count := streakCount Axis.size (axisKey Axis.size first) (first :: rest)
           color := sizeColorStr (axisKey Axis.size first)
           threshold := threshold
           nextHeight := first.height + rule.value * rows, rowId := some (r + 1) }]
      else []) := by
  unfold rowDragonsOf
  rw [h]

/-- The descending sort of the dragon lists is pairwise descending by count. -/
theorem sortByCountDesc_pairwise (l : List DragonInfo) :
    (sortByCountDesc l).Pairwise (fun a b => b.count ≤ a.count) := by
  unfold sortByCountDesc
  refine List.Pairwise.imp (fun hab => of_decide_eq_true hab)
    (List.sorted_mergeSort ?_ ?_ l)
  · intro a b c hab hbc
    simp only [decide_eq_true_eq] at *
    omega
  · intro a b
    simp only [Bool.or_eq_true, decide_eq_true_eq]
    omega

/-- `sortDescHeight` is pairwise descending by height. -/
theorem sortDescHeight_pairwise (l : List BlockData) :
    (sortDescHeight l).Pairwise (fun a b => b.height ≤ a.height) := by
  unfold sortDescHeight
  refine List.Pairwise.imp (fun hab => of_decide_eq_true hab)
    (List.sorted_mergeSort ?_ ?_ l)
  · intro a b c hab hbc
    simp only [decide_eq_true_eq] at *
    omega
  · intro a b
    simp only [Bool.or_eq_true, decide_eq_true_eq]
    omega

/-- `sortAscHeight` is pairwise ascending by height. -/
theorem sortAscHeight_pairwise (l : List BlockData) :
    (sortAscHeight l).Pairwise (fun a b => a.height ≤ b.height) := by
  unfold sortAscHeight
  refine List.Pairwise.imp (fun hab => of_decide_eq_true hab)
    (List.sorted_mergeSort ?_ ?_ l)
  · intro a b c hab hbc
    simp only [decide_eq_true_eq] at *
    omega
  · intro a b
    simp only [Bool.or_eq_true, decide_eq_true_eq]
    omega

/-- `sortAscHeight` permutes its input. -/
theorem sortAscHeight_perm (l : List BlockData) : (sortAscHeight l).Perm l :=
  List.mergeSort_perm l _

/-- `sortDescHeight` permutes its input. -/
theorem sortDescHeight_perm (l : List BlockData) : (sortDescHeight l).Perm l :=
  List.mergeSort_perm l _

/-! ## C6 — graceful degradation on empty input / empty aligned set -/

/-- C6: empty input short-circuits `computeDragons` to two empty lists for
any rule list; a rule whose aligned set is empty contributes nothing, and
deleting such a rule from the rule list leaves the whole output unchanged. -/
theorem computeDragons_degrade :
    (∀ rules : List IntervalRule, computeDragons [] rules = ([], [])) ∧
    (∀ (allBlocks : List BlockData) (rule : IntervalRule),
      alignedDesc allBlocks rule = [] → processRule allBlocks rule = ([], [])) ∧
    (∀ (allBlocks : List BlockData) (rules₁ rules₂ : List IntervalRule)
      (rule : IntervalRule), alignedDesc allBlocks rule = [] →
      computeDragons allBlocks (rules₁ ++ rule :: rules₂) =
        computeDragons allBlocks (rules₁ ++ rules₂)) := by
  refine ⟨fun rules => rfl, fun allBlocks rule h => processRule_nil _ _ h, ?_⟩
  intro allBlocks rules₁ rules₂ rule h
  unfold computeDragons
  by_cases hb : allBlocks.length = 0
  · simp [hb]
  · have hnil := processRule_nil allBlocks rule h
    simp [hb, hnil]

/-- Witness for C6 at a concrete input whose aligned set is empty
(`value = 2, startBlock = 0` has no even height in the input). -/
theorem computeDragons_degrade_witness :
    computeDragons [⟨1, 2, Label.EVEN, Label.SMALL⟩]
        ([] ++ (⟨"r", "R", 2, 0, 6, none⟩ : IntervalRule) :: []) =
      computeDragons [⟨1, 2, Label.EVEN, Label.SMALL⟩] ([] ++ []) :=
  computeDragons_degrade.2.2 [⟨1, 2, Label.EVEN, Label.SMALL⟩] [] []
    ⟨"r", "R", 2, 0, 6, none⟩
    (by simp [alignedDesc, sortDescHeight, checkAlignment])

/-! ## C9 — output lists sorted descending by count -/

/-- C9: after all rules are processed, both output lists of `computeDragons`
are pairwise descending by `count`: every entry's count is at least the
count of every later entry of the same list. -/
theorem computeDragons_sorted (allBlocks : List BlockData) (rules : List IntervalRule) :
    (computeDragons allBlocks rules).1.Pairwise (fun a b => b.count ≤ a.count) ∧
    (computeDragons allBlocks rules).2.Pairwise (fun a b => b.count ≤ a.count) := by
  unfold computeDragons
  by_cases hb : allBlocks.length = 0
  · simp [hb]
  · simp only [hb, if_false]
    exact ⟨sortByCountDesc_pairwise _, sortByCountDesc_pairwise _⟩

/-! ## C10 — falsy `beadRows` silently defaults to 6 -/

/-- C10: when `rule.beadRows` is `0` (the only falsy `number` the config
type allows), the dragon computation behaves exactly as if `beadRows` were
`6`: the round-robin partition and the row next-height projection both use
6 rows, and the rule's whole contribution is unchanged by substituting 6. -/
theorem beadRows_default (allBlocks : List BlockData) (rule : IntervalRule)
    (h : rule.beadRows = 0) :
    rowsOf rule = 6 ∧
    processRule allBlocks rule = processRule allBlocks { rule with beadRows := 6 } := by
  have h6 : rowsOf rule = 6 := by simp [rowsOf, h]
  have h6' : rowsOf { rule with beadRows := 6 } = 6 := by simp [rowsOf]
  refine ⟨h6, ?_⟩
  unfold processRule
  simp only [h6, h6']
  rfl

/-- Witness for C10 at a concrete rule with `beadRows = 0`. -/
theorem beadRows_default_witness :
    rowsOf ⟨"r", "R", 1, 0, 0, none⟩ = 6 ∧
    processRule [⟨1, 2, Label.EVEN, Label.SMALL⟩] ⟨"r", "R", 1, 0, 0, none⟩ =
      processRule [⟨1, 2, Label.EVEN, Label.SMALL⟩]
        { (⟨"r", "R", 1, 0, 0, none⟩ : IntervalRule) with beadRows := 6 } :=
  beadRows_default [⟨1, 2, Label.EVEN, Label.SMALL⟩] ⟨"r", "R", 1, 0, 0, none⟩ rfl

/-! ## C5 — the threshold gate -/

/-- C5: a trend or row streak is reported as a `DragonInfo` iff its count
reaches the rule's threshold; the threshold is `rule.dragonThreshold` when
non-zero and `3` when absent or `0`; consequently a run of exactly
`threshold - 1` is excluded and a run of exactly `threshold` is included. -/
theorem dragon_threshold_gate :
    (∀ rule : IntervalRule, rule.dragonThreshold = none → thresholdOf rule = 3) ∧
    (∀ rule : IntervalRule, rule.dragonThreshold = some 0 → thresholdOf rule = 3) ∧
    (∀ (rule : IntervalRule) (t : Nat), rule.dragonThreshold = some t → t ≠ 0 →
      thresholdOf rule = t) ∧
    (∀ (allBlocks : List BlockData) (rule : IntervalRule) (first : BlockData)
      (rest : List BlockData), alignedDesc allBlocks rule = first :: rest →
      (((∃ d ∈ (processRule allBlocks rule).1, d.type = Axis.parity ∧
          d.count = streakCount Axis.parity (axisKey Axis.parity first) (first :: rest)) ↔
        thresholdOf rule ≤ streakCount Axis.parity (axisKey Axis.parity first) (first :: rest)) ∧
       ((∃ d ∈ (processRule allBlocks rule).1, d.type = Axis.size ∧
          d.count = streakCount Axis.size (axisKey Axis.size first) (first :: rest)) ↔
        thresholdOf rule ≤ streakCount Axis.size (axisKey Axis.size first) (first :: rest)) ∧
       (∀ d ∈ (processRule allBlocks rule).1, thresholdOf rule ≤ d.count) ∧
       (streakCount Axis.parity (axisKey Axis.parity first) (first :: rest) + 1 =
          thresholdOf rule →
        ¬ ∃ d ∈ (processRule allBlocks rule).1, d.type = Axis.parity) ∧
       (streakCount Axis.parity (axisKey Axis.parity first) (first :: rest) =
          thresholdOf rule →
        ∃ d ∈ (processRule allBlocks rule).1, d.type = Axis.parity ∧
          d.count = thresholdOf rule))) ∧
    (∀ (rule : IntervalRule) (threshold rows : Nat) (chrono : List BlockData)
      (r : Nat) (first : BlockData) (rest : List BlockData),
      (rowItemsOf chrono rows r).reverse = first :: rest →
      (((∃ d ∈ rowDragonsOf rule threshold rows chrono r, d.type = Axis.parity ∧
          d.count = streakCount Axis.parity (axisKey Axis.parity first) (first :: rest)) ↔
        threshold ≤ streakCount Axis.parity (axisKey Axis.parity first) (first :: rest)) ∧
       ((∃ d ∈ rowDragonsOf rule threshold rows chrono r, d.type = Axis.size ∧
          d.count = streakCount Axis.size (axisKey Axis.size first) (first :: rest)) ↔
        threshold ≤ streakCount Axis.size (axisKey Axis.size first) (first :: rest)) ∧
       (∀ d ∈ rowDragonsOf rule threshold rows chrono r, threshold ≤ d.count))) := by
  refine ⟨?_, ?_, ?_, ?_, ?_⟩
  · intro rule h
    simp [thresholdOf, h]
  · intro rule h
    simp [thresholdOf, h]
  · intro rule t h ht
    simp [thresholdOf, h, ht]
  · intro allBlocks rule first rest h
    rw [processRule_cons allBlocks rule first rest h]
    set pc := streakCount Axis.parity (axisKey Axis.parity first) (first :: rest) with hpc
    set sc := streakCount Axis.size (axisKey Axis.size first) (first :: rest) with hsc
    by_cases hp : thresholdOf rule ≤ pc <;> by_cases hs : thresholdOf rule ≤ sc <;>
      simp [hp, hs, ge_iff_le] <;> omega
  · intro rule threshold rows chrono r first rest h
    rw [rowDragonsOf_cons rule threshold rows chrono r first rest h]
    set pc := streakCount Axis.parity (axisKey Axis.parity first) (first :: rest) with hpc
    set sc := streakCount Axis.size (axisKey Axis.size first) (first :: rest) with hsc
    by_cases hp : threshold ≤ pc <;> by_cases hs : threshold ≤ sc <;>
      simp [hp, hs, ge_iff_le]

/-- Witness for C5: one aligned block, threshold `1`, so the parity streak
of length 1 is reported. -/
theorem dragon_threshold_gate_witness :
    ((∃ d ∈ (processRule [⟨2, 1, Label.ODD, Label.SMALL⟩]
        ⟨"r", "R", 1, 0, 6, some 1⟩).1, d.type = Axis.parity ∧
        d.count = streakCount Axis.parity
          (axisKey Axis.parity ⟨2, 1, Label.ODD, Label.SMALL⟩)
          (⟨2, 1, Label.ODD, Label.SMALL⟩ :: [])) ↔
      thresholdOf ⟨"r", "R", 1, 0, 6, some 1⟩ ≤ streakCount Axis.parity
        (axisKey Axis.parity ⟨2, 1, Label.ODD, Label.SMALL⟩)
        (⟨2, 1, Label.ODD, Label.SMALL⟩ :: [])) ∧
    ((∃ d ∈ (processRule [⟨2, 1, Label.ODD, Label.SMALL⟩]
        ⟨"r", "R", 1, 0, 6, some 1⟩).1, d.type = Axis.size ∧
        d.count = streakCount Axis.size
          (axisKey Axis.size ⟨2, 1, Label.ODD, Label.SMALL⟩)
          (⟨2, 1, Label.ODD, Label.SMALL⟩ :: [])) ↔
      thresholdOf ⟨"r", "R", 1, 0, 6, some 1⟩ ≤ streakCount Axis.size
        (axisKey Axis.size ⟨2, 1, Label.ODD, Label.SMALL⟩)
        (⟨2, 1, Label.ODD, Label.SMALL⟩ :: [])) ∧
    (∀ d ∈ (processRule [⟨2, 1, Label.ODD, Label.SMALL⟩]
        ⟨"r", "R", 1, 0, 6, some 1⟩).1,
      thresholdOf ⟨"r", "R", 1, 0, 6, some 1⟩ ≤ d.count) ∧
    (streakCount Axis.parity (axisKey Axis.parity ⟨2, 1, Label.ODD, Label.SMALL⟩)
        (⟨2, 1, Label.ODD, Label.SMALL⟩ :: []) + 1 =
      thresholdOf ⟨"r", "R", 1, 0, 6, some 1⟩ →
      ¬ ∃ d ∈ (processRule [⟨2, 1, Label.ODD, Label.SMALL⟩]
        ⟨"r", "R", 1, 0, 6, some 1⟩).1, d.type = Axis.parity) ∧
    (streakCount Axis.parity (axisKey Axis.parity ⟨2, 1, Label.ODD, Label.SMALL⟩)
        (⟨2, 1, Label.ODD, Label.SMALL⟩ :: []) =
      thresholdOf ⟨"r", "R", 1, 0, 6, some 1⟩ →
      ∃ d ∈ (processRule [⟨2, 1, Label.ODD, Label.SMALL⟩]
        ⟨"r", "R", 1, 0, 6, some 1⟩).1, d.type = Axis.parity ∧
        d.count = thresholdOf ⟨"r", "R", 1, 0, 6, some 1⟩) :=
  dragon_threshold_gate.2.2.2.1 [⟨2, 1, Label.ODD, Label.SMALL⟩]
    ⟨"r", "R", 1, 0, 6, some 1⟩ ⟨2, 1, Label.ODD, Label.SMALL⟩ []
    (by simp [alignedDesc, sortDescHeight, checkAlignment])

/-! ## C8 — projected next heights -/

/-- A row whose reversed item list is empty contributes no dragons. -/
theorem rowDragonsOf_nil (rule : IntervalRule) (threshold rows : Nat)
    (chrono : List BlockData) (r : Nat)
    (h : (rowItemsOf chrono rows r).reverse = []) :
    rowDragonsOf rule threshold rows chrono r = [] := by
  unfold rowDragonsOf
  rw [h]

/-- `stride` selects a sublist of its input. -/
theorem stride_sublist (step : Nat) : (l : List BlockData) → (stride step l).Sublist l
  | [] => by
    rw [stride]
  | x :: xs => by
    rw [stride]
    exact ((stride_sublist step (xs.drop (step - 1))).trans
      (List.drop_sublist (step - 1) xs)).cons₂ x
termination_by l => l.length
decreasing_by simp only [List.length_cons, List.length_drop]; omega

/-- A row's item list is a sublist of the chronological aligned list. -/
theorem rowItemsOf_sublist (chrono : List BlockData) (rows r : Nat) :
    (rowItemsOf chrono rows r).Sublist chrono :=
  (stride_sublist rows (chrono.drop r)).trans (List.drop_sublist r chrono)

/-- C8: with a non-empty aligned set, `first` (the head of the
latest-first aligned list) is the greatest aligned height and every trend
dragon of the rule projects `first.height + rule.value`; every row dragon
projects the row's most-recent (greatest-height) element plus
`rule.value * rows` and is tagged with its 1-based row id. -/
theorem projected_next_height (allBlocks : List BlockData) (rule : IntervalRule)
    (first : BlockData) (rest : List BlockData)
    (h : alignedDesc allBlocks rule = first :: rest) :
    first ∈ allBlocks.filter (fun b => checkAlignment rule b.height) ∧
    (∀ b ∈ allBlocks.filter (fun b => checkAlignment rule b.height),
      b.height ≤ first.height) ∧
    (∀ d ∈ (processRule allBlocks rule).1, d.nextHeight = first.height + rule.value) ∧
    (∀ d ∈ (processRule allBlocks rule).2, ∃ r, r < rowsOf rule ∧
      d.rowId = some (r + 1) ∧
      ∃ b ∈ rowItemsOf (sortAscHeight (first :: rest)) (rowsOf rule) r,
        (∀ c ∈ rowItemsOf (sortAscHeight (first :: rest)) (rowsOf rule) r,
          c.height ≤ b.height) ∧
        d.nextHeight = b.height + rule.value * rowsOf rule) := by
  have hperm : (first :: rest).Perm
      (allBlocks.filter (fun b => checkAlignment rule b.height)) := by
    rw [← h]
    exact sortDescHeight_perm _
  have hpair : (first :: rest).Pairwise (fun a b => b.height ≤ a.height) := by
    rw [← h]
    exact sortDescHeight_pairwise _
  refine ⟨?_, ?_, ?_, ?_⟩
  · exact hperm.mem_iff.mp (List.mem_cons_self first rest)
  · intro b hb
    have hb' : b ∈ first :: rest := hperm.mem_iff.mpr hb
    rcases List.mem_cons.mp hb' with hb1 | hb2
    · exact le_of_eq (congrArg BlockData.height hb1)
    · exact (List.pairwise_cons.mp hpair).1 b hb2
  · rw [processRule_cons allBlocks rule first rest h]
    intro d hd
    rcases List.mem_append.mp hd with hd1 | hd1 <;> revert hd1 <;>
      split <;> simp_all
  · rw [processRule_cons allBlocks rule first rest h]
    intro d hd
    rw [List.mem_flatten] at hd
    obtain ⟨l, hl, hdl⟩ := hd
    rw [List.mem_map] at hl
    obtain ⟨r, hr, rfl⟩ := hl
    rw [List.mem_range] at hr
    refine ⟨r, hr, ?_⟩
    rcases hrev : (rowItemsOf (sortAscHeight (first :: rest)) (rowsOf rule) r).reverse with
      _ | ⟨first', rest'⟩
    · rw [rowDragonsOf_nil _ _ _ _ _ hrev] at hdl
      simp at hdl
    · rw [rowDragonsOf_cons _ _ _ _ _ _ _ hrev] at hdl
      have hmax : ∀ c ∈ rowItemsOf (sortAscHeight (first :: rest)) (rowsOf rule) r,
          c.height ≤ first'.height := by
        intro c hc
        have hasc : (rowItemsOf (sortAscHeight (first :: rest)) (rowsOf rule) r).Pairwise
            (fun a b => a.height ≤ b.height) :=
          List.Pairwise.sublist (rowItemsOf_sublist _ _ _) (sortAscHeight_pairwise _)
        have hrevpair : ((rowItemsOf (sortAscHeight (first :: rest))
            (rowsOf rule) r).reverse).Pairwise (fun a b => b.height ≤ a.height) := by
          rw [List.pairwise_reverse]
          exact hasc
        rw [hrev] at hrevpair
        have hc' : c ∈ first' :: rest' := by
          rw [← hrev, List.mem_reverse]
          exact hc
        rcases List.mem_cons.mp hc' with hc1 | hc2
        · exact le_of_eq (congrArg BlockData.height hc1)
        · exact (List.pairwise_cons.mp hrevpair).1 c hc2
      have hfirst' : first' ∈ rowItemsOf (sortAscHeight (first :: rest)) (rowsOf rule) r := by
        rw [← List.mem_reverse, hrev]
        exact List.mem_cons_self first' rest'
      refine ?_
      rcases List.mem_append.mp hdl with hd1 | hd1 <;> revert hd1 <;> split <;>
        intro hd1 <;> simp only [List.mem_singleton, List.not_mem_nil] at hd1 <;>
        first
          | exact absurd hd1 (by simp)
          | (subst hd1; exact ⟨rfl, first', hfirst', hmax, rfl⟩)

/-- Witness for C8 at a single aligned block. -/
theorem projected_next_height_witness :
    (⟨5, 4, Label.EVEN, Label.SMALL⟩ : BlockData) ∈
      ([⟨5, 4, Label.EVEN, Label.SMALL⟩] : List BlockData).filter
        (fun b => checkAlignment ⟨"r", "R", 1, 0, 1, none⟩ b.height) ∧
    (∀ b ∈ ([⟨5, 4, Label.EVEN, Label.SMALL⟩] : List BlockData).filter
        (fun b => checkAlignment ⟨"r", "R", 1, 0, 1, none⟩ b.height),
      b.height ≤ (⟨5, 4, Label.EVEN, Label.SMALL⟩ : BlockData).height) ∧
    (∀ d ∈ (processRule [⟨5, 4, Label.EVEN, Label.SMALL⟩] ⟨"r", "R", 1, 0, 1, none⟩).1,
      d.nextHeight = (⟨5, 4, Label.EVEN, Label.SMALL⟩ : BlockData).height +
        (⟨"r", "R", 1, 0, 1, none⟩ : IntervalRule).value) ∧
    (∀ d ∈ (processRule [⟨5, 4, Label.EVEN, Label.SMALL⟩] ⟨"r", "R", 1, 0, 1, none⟩).2,
      ∃ r, r < rowsOf ⟨"r", "R", 1, 0, 1, none⟩ ∧ d.rowId = some (r + 1) ∧
      ∃ b ∈ rowItemsOf (sortAscHeight (⟨5, 4, Label.EVEN, Label.SMALL⟩ :: []))
          (rowsOf ⟨"r", "R", 1, 0, 1, none⟩) r,
        (∀ c ∈ rowItemsOf (sortAscHeight (⟨5, 4, Label.EVEN, Label.SMALL⟩ :: []))
            (rowsOf ⟨"r", "R", 1, 0, 1, none⟩) r, c.height ≤ b.height) ∧
        d.nextHeight = b.height + (⟨"r", "R", 1, 0, 1, none⟩ : IntervalRule).value *
          rowsOf ⟨"r", "R", 1, 0, 1, none⟩) :=
  projected_next_height [⟨5, 4, Label.EVEN, Label.SMALL⟩] ⟨"r", "R", 1, 0, 1, none⟩
    ⟨5, 4, Label.EVEN, Label.SMALL⟩ []
    (by simp [alignedDesc, sortDescHeight, checkAlignment])

/-! ## C7 — round-robin row partition and reversal -/

/-- `stride` indexes its input at multiples of the step. -/
theorem stride_getElem (step : Nat) (hstep : 1 ≤ step) :
    (l : List BlockData) → ∀ j : Nat, (stride step l)[j]? = l[j * step]?
  | [], j => by
    rw [stride]
    simp
  | x :: xs, 0 => by
    rw [stride]
    simp
  | x :: xs, Nat.succ k => by
    rw [stride]
    have ih := stride_getElem step hstep (xs.drop (step - 1)) k
    have harith : (k + 1) * step = (step - 1 + k * step) + 1 := by
      rw [Nat.succ_mul]
      omega
    rw [List.getElem?_cons_succ, ih, List.getElem?_drop, harith, List.getElem?_cons_succ]
termination_by l => l.length
decreasing_by simp only [List.length_cons, List.length_drop]; omega

/-- Row `r` indexes the chronological list at `r, r + rows, r + 2·rows, …`. -/
theorem rowItemsOf_getElem (chrono : List BlockData) (rows r : Nat) (hrows : 1 ≤ rows)
    (j : Nat) : (rowItemsOf chrono rows r)[j]? = chrono[r + j * rows]? := by
  unfold rowItemsOf
  rw [stride_getElem rows hrows (chrono.drop r) j, List.getElem?_drop]

/-- C7: row `r < rows` of the round-robin partition holds exactly the
elements of the ascending aligned list whose position is `≡ r (mod rows)`,
in order (`j`-th row entry = list entry at `r + j·rows`; conversely the
entry at any position `i ≡ r` appears at row index `i / rows`); a row is
skipped exactly when it is empty, and every reported row dragon's count is
the streak detector's answer on that row reversed (most-recent first) for
the dragon's own axis. -/
theorem row_partition (chrono : List BlockData) (rows r : Nat) (hr : r < rows) :
    (∀ j : Nat, (rowItemsOf chrono rows r)[j]? = chrono[r + j * rows]?) ∧
    (∀ i : Nat, i < chrono.length → i % rows = r →
      (rowItemsOf chrono rows r)[i / rows]? = chrono[i]?) ∧
    (∀ (rule : IntervalRule) (threshold : Nat),
      rowItemsOf chrono rows r = [] → rowDragonsOf rule threshold rows chrono r = []) ∧
    (∀ (rule : IntervalRule) (threshold : Nat),
      ∀ d ∈ rowDragonsOf rule threshold rows chrono r,
        ∃ v, calculateStreak d.type ((rowItemsOf chrono rows r).reverse) =
          some (v, d.count)) := by
  have hrows : 1 ≤ rows := by omega
  refine ⟨rowItemsOf_getElem chrono rows r hrows, ?_, ?_, ?_⟩
  · intro i hi hmod
    rw [rowItemsOf_getElem chrono rows r hrows]
    have h2 : i / rows * rows + i % rows = i := Nat.div_add_mod' i rows
    congr 1
    omega
  · intro rule threshold h
    exact rowDragonsOf_nil rule threshold rows chrono r (by rw [h, List.reverse_nil])
  · intro rule threshold d hd
    rcases hrev : (rowItemsOf chrono rows r).reverse with _ | ⟨first', rest'⟩
    · rw [rowDragonsOf_nil rule threshold rows chrono r hrev] at hd
      simp at hd
    · rw [rowDragonsOf_cons rule threshold rows chrono r first' rest' hrev] at hd
      rcases List.mem_append.mp hd with hd1 | hd1 <;> revert hd1 <;> split <;>
        intro hd1 <;> simp only [List.mem_singleton, List.not_mem_nil] at hd1 <;>
        first
          | exact absurd hd1 (by simp)
          | (subst hd1
             exact ⟨_, rfl⟩)

/-- Witness for C7 at a concrete three-element list with two rows. -/
theorem row_partition_witness :
    (∀ j : Nat,
      (rowItemsOf [⟨1, 1, Label.ODD, Label.SMALL⟩, ⟨2, 2, Label.EVEN, Label.SMALL⟩,
        ⟨3, 3, Label.ODD, Label.SMALL⟩] 2 1)[j]? =
      ([⟨1, 1, Label.ODD, Label.SMALL⟩, ⟨2, 2, Label.EVEN, Label.SMALL⟩,
        ⟨3, 3, Label.ODD, Label.SMALL⟩] : List BlockData)[1 + j * 2]?) ∧
    (∀ i : Nat, i < ([⟨1, 1, Label.ODD, Label.SMALL⟩, ⟨2, 2, Label.EVEN, Label.SMALL⟩,
        ⟨3, 3, Label.ODD, Label.SMALL⟩] : List BlockData).length → i % 2 = 1 →
      (rowItemsOf [⟨1, 1, Label.ODD, Label.SMALL⟩, ⟨2, 2, Label.EVEN, Label.SMALL⟩,
        ⟨3, 3, Label.ODD, Label.SMALL⟩] 2 1)[i / 2]? =
      ([⟨1, 1, Label.ODD, Label.SMALL⟩, ⟨2, 2, Label.EVEN, Label.SMALL⟩,
        ⟨3, 3, Label.ODD, Label.SMALL⟩] : List BlockData)[i]?) ∧
    (∀ (rule : IntervalRule) (threshold : Nat),
      rowItemsOf [⟨1, 1, Label.ODD, Label.SMALL⟩, ⟨2, 2, Label.EVEN, Label.SMALL⟩,
        ⟨3, 3, Label.ODD, Label.SMALL⟩] 2 1 = [] →
      rowDragonsOf rule threshold 2
        [⟨1, 1, Label.ODD, Label.SMALL⟩, ⟨2, 2, Label.EVEN, Label.SMALL⟩,
          ⟨3, 3, Label.ODD, Label.SMALL⟩] 1 = []) ∧
    (∀ (rule : IntervalRule) (threshold : Nat),
      ∀ d ∈ rowDragonsOf rule threshold 2
        [⟨1, 1, Label.ODD, Label.SMALL⟩, ⟨2, 2, Label.EVEN, Label.SMALL⟩,
          ⟨3, 3, Label.ODD, Label.SMALL⟩] 1,
        ∃ v, calculateStreak d.type
          ((rowItemsOf [⟨1, 1, Label.ODD, Label.SMALL⟩, ⟨2, 2, Label.EVEN, Label.SMALL⟩,
            ⟨3, 3, Label.ODD, Label.SMALL⟩] 2 1).reverse) = some (v, d.count)) :=
  row_partition [⟨1, 1, Label.ODD, Label.SMALL⟩, ⟨2, 2, Label.EVEN, Label.SMALL⟩,
    ⟨3, 3, Label.ODD, Label.SMALL⟩] 2 1 (by omega)

/-! ## C2 — the bead grid -/

/-- Flattening a column-major reshape over index ranges is a single map
over the flat index range. -/
theorem flatten_map_range (rows : Nat) (f : Nat → GridCell) :
    ∀ numCols : Nat,
      ((List.range numCols).map
        (fun c => (List.range rows).map (fun r => f (c * rows + r)))).flatten =
      (List.range (numCols * rows)).map f := by
  intro numCols
  induction numCols with
  | zero => simp
  | succ n ih =>
    rw [List.range_succ, List.map_append, List.flatten_append, ih, Nat.succ_mul,
      List.range_add, List.map_append, List.map_map]
    simp [Function.comp]

/-- Mapping the cell lookup over `range k` is the mapped list followed by
empty-cell padding, when `k` covers the list. -/
theorem range_map_lookup (a : Axis) :
    ∀ (l : List BlockData) (k : Nat), l.length ≤ k →
      (List.range k).map (lookupCell a l) =
      l.map (cellOf a) ++ List.replicate (k - l.length) emptyCell := by
  intro l
  induction l with
  | nil =>
    intro k _
    have hconst : ∀ i ∈ List.range k, lookupCell a [] i = emptyCell := by
      intro i _
      simp [lookupCell]
    rw [List.map_congr_left hconst]
    simp [List.map_const']
  | cons b bs ih =>
    intro k hk
    match k, hk with
    | Nat.succ k', hk =>
      rw [List.range_succ_eq_map, List.map_cons, List.map_map]
      have hcomp : ∀ i ∈ List.range k',
          (lookupCell a (b :: bs) ∘ Nat.succ) i = lookupCell a bs i := by
        intro i _
        simp only [Function.comp_apply, lookupCell, List.getElem?_cons_succ]
      rw [List.map_congr_left hcomp, ih k' (by simpa using hk)]
      simp only [lookupCell, List.getElem?_cons_zero, List.map_cons, List.cons_append,
        List.length_cons, Nat.succ_sub_succ_eq_sub]

/-- `flatten_map_range` specialised to the bead-grid cell function. -/
theorem bead_flatten (sorted : List BlockData) (a : Axis) (rows numCols : Nat) :
    ((List.range numCols).map (fun c => (List.range rows).map (fun r =>
      lookupCell a sorted (c * rows + r)))).flatten =
    (List.range (numCols * rows)).map (lookupCell a sorted) :=
  flatten_map_range rows (lookupCell a sorted) numCols

/-- C2: the bead grid has exactly `max 24 ⌈n / rows⌉` columns of `rows`
cells each; cell `(c, r)` holds the `c·rows + r`-th block of the
ascending-height input when it exists and an empty cell otherwise; and the
column-major flattening is the ascending-height input followed by empty
padding. -/
theorem bead_grid_spec (blocks : List BlockData) (a : Axis) (rows : Nat)
    (hrows : 1 ≤ rows) :
    (calculateBeadGrid blocks a rows).length =
      max 24 ((blocks.length + rows - 1) / rows) ∧
    (∀ col ∈ calculateBeadGrid blocks a rows, col.length = rows) ∧
    (∀ c r : Nat, c < (calculateBeadGrid blocks a rows).length → r < rows →
      ∃ col, (calculateBeadGrid blocks a rows)[c]? = some col ∧
        col[r]? = some (lookupCell a (sortAscHeight blocks) (c * rows + r))) ∧
    (calculateBeadGrid blocks a rows).flatten =
      (sortAscHeight blocks).map (cellOf a) ++
        List.replicate ((calculateBeadGrid blocks a rows).length * rows - blocks.length)
          emptyCell := by
  have hlen : (sortAscHeight blocks).length = blocks.length :=
    (sortAscHeight_perm blocks).length_eq
  have hcover : blocks.length ≤ max 24 ((blocks.length + rows - 1) / rows) * rows := by
    have hmod := Nat.div_add_mod' (blocks.length + rows - 1) rows
    have hlt : (blocks.length + rows - 1) % rows < rows := Nat.mod_lt _ (by omega)
    have hceil : blocks.length ≤ (blocks.length + rows - 1) / rows * rows := by omega
    calc blocks.length ≤ (blocks.length + rows - 1) / rows * rows := hceil
      _ ≤ max 24 ((blocks.length + rows - 1) / rows) * rows :=
        Nat.mul_le_mul_right rows (le_max_right _ _)
  have hGlen : (calculateBeadGrid blocks a rows).length =
      max 24 ((blocks.length + rows - 1) / rows) := by
    unfold calculateBeadGrid
    simp [hlen]
  refine ⟨hGlen, ?_, ?_, ?_⟩
  · intro col hcol
    unfold calculateBeadGrid at hcol
    simp only [List.mem_map] at hcol
    obtain ⟨c, _, rfl⟩ := hcol
    simp
  · intro c r hc hr
    rw [hGlen] at hc
    refine ⟨(List.range rows).map (fun r =>
        lookupCell a (sortAscHeight blocks) (c * rows + r)), ?_, ?_⟩
    · unfold calculateBeadGrid
      rw [List.getElem?_map, List.getElem?_range (by simpa [hlen] using hc)]
      rfl
    · rw [List.getElem?_map, List.getElem?_range hr]
      rfl
  · rw [hGlen]
    unfold calculateBeadGrid
    simp only
    rw [bead_flatten, range_map_lookup a (sortAscHeight blocks) _
      (by rw [hlen]; exact hcover), hlen]

/-- Witness for C2 at one block and two rows. -/
theorem bead_grid_spec_witness :
    (calculateBeadGrid [⟨3, 8, Label.EVEN, Label.BIG⟩] Axis.size 2).length =
      max 24 ((1 + 2 - 1) / 2) ∧
    (∀ col ∈ calculateBeadGrid [⟨3, 8, Label.EVEN, Label.BIG⟩] Axis.size 2,
      col.length = 2) ∧
    (∀ c r : Nat, c < (calculateBeadGrid [⟨3, 8, Label.EVEN, Label.BIG⟩] Axis.size 2).length →
      r < 2 →
      ∃ col, (calculateBeadGrid [⟨3, 8, Label.EVEN, Label.BIG⟩] Axis.size 2)[c]? = some col ∧
        col[r]? = some (lookupCell Axis.size (sortAscHeight [⟨3, 8, Label.EVEN, Label.BIG⟩])
          (c * 2 + r))) ∧
    (calculateBeadGrid [⟨3, 8, Label.EVEN, Label.BIG⟩] Axis.size 2).flatten =
      (sortAscHeight [⟨3, 8, Label.EVEN, Label.BIG⟩]).map (cellOf Axis.size) ++
        List.replicate
          ((calculateBeadGrid [⟨3, 8, Label.EVEN, Label.BIG⟩] Axis.size 2).length * 2 - 1)
          emptyCell :=
  bead_grid_spec [⟨3, 8, Label.EVEN, Label.BIG⟩] Axis.size 2 (by omega)

/-! ## C1 — the trend (Big Road) grid -/

/-- The populated cells of a column (cells whose `type` is not `null`). -/
def populated (col : List GridCell) : List GridCell :=
  col.filter (fun c => c.type.isSome)

/-- The classification value written at the top of a column chunk. -/
def chunkValue (l : List GridCell) : Option Label :=
  match l.head? with
  | some c => c.type
  | none => none

/-- The legal boundary between two adjacent populated column chunks: either
the value changes, or the earlier column is full (holds exactly `rows`
cells) — the "new column exactly when different value or full" law. -/
def breakOK (rows : Nat) (a b : List GridCell) : Prop :=
  chunkValue a ≠ chunkValue b ∨ a.length = rows

/-- Padding a short column yields exactly `rows` cells. -/
theorem padColumn_length (rows : Nat) (col : List GridCell) (h : col.length ≤ rows) :
    (padColumn rows col).length = rows := by
  simp only [padColumn, List.length_append, List.length_replicate]
  omega

/-- Padding adds only empty cells: the populated part of a padded
all-populated column is the column itself. -/
theorem populated_padColumn (rows : Nat) (col : List GridCell)
    (h : ∀ c ∈ col, c.type.isSome) :
    populated (padColumn rows col) = col := by
  unfold populated padColumn
  rw [List.filter_append, List.filter_eq_self.mpr h]
  have hrep : (List.replicate (rows - col.length) emptyCell).filter
      (fun c => c.type.isSome) = [] := by
    simp [emptyCell, List.filter_replicate]
  rw [hrep, List.append_nil]

/-- A fully empty column has no populated cells. -/
theorem populated_emptyCol (rows : Nat) :
    populated (List.replicate rows emptyCell) = [] := by
  simp [populated, emptyCell, List.filter_replicate]

/-- `chunkValue` only looks at the head. -/
theorem chunkValue_append (l₁ l₂ : List GridCell) (h : l₁ ≠ []) :
    chunkValue (l₁ ++ l₂) = chunkValue l₁ := by
  match l₁, h with
  | c :: cs, _ => rfl

/-- The loop invariant of the `forEach` walk in `calculateTrendGrid`,
relating the mutable state to the prefix `done` of the chronological input
already consumed. -/
structure TrendInv (typeKey : Axis) (rows : Nat) (s : TrendState)
    (done : List BlockData) : Prop where
  cols_core : ∀ col ∈ s.columns, ∃ core, core ≠ [] ∧ core.length ≤ rows ∧
    (∃ v, ∀ c ∈ core, c.type = some v) ∧ col = padColumn rows core
  cur_le : s.currentColumn.length ≤ rows
  cur_val : ∀ c ∈ s.currentColumn, c.type = s.lastVal
  cur_some : s.currentColumn ≠ [] → ∃ v, s.lastVal = some v
  empty_none : s.currentColumn = [] → s.columns = [] ∧ s.lastVal = none
  flat : (s.columns.map populated).flatten ++ s.currentColumn =
    done.map (cellOf typeKey)
  chain : List.Chain' (breakOK rows) (s.columns.map populated ++
    (if s.currentColumn.isEmpty then [] else [s.currentColumn]))

/-- The invariant holds at the start of the walk. -/
theorem TrendInv.init (typeKey : Axis) (rows : Nat) :
    TrendInv typeKey rows ⟨[], [], none⟩ [] := by
  refine ⟨?_, ?_, ?_, ?_, ?_, ?_, ?_⟩ <;> simp

/-- One `forEach` iteration preserves the invariant. -/
theorem TrendInv.step (typeKey : Axis) (rows : Nat) (hrows : 1 ≤ rows)
    (s : TrendState) (done : List BlockData) (b : BlockData)
    (inv : TrendInv typeKey rows s done) :
    TrendInv typeKey rows (trendStep typeKey rows s b) (done ++ [b]) := by
  by_cases hcond : some (axisKey typeKey b) ≠ s.lastVal ∨ rows ≤ s.currentColumn.length
  · by_cases hcur : s.currentColumn = []
    · obtain ⟨hcols, hlast⟩ := inv.empty_none hcur
      have hstep : trendStep typeKey rows s b =
          ⟨[], [cellOf typeKey b], some (axisKey typeKey b)⟩ := by
        simp only [trendStep]
        rw [if_pos hcond]
        simp [hcur, hcols]
      rw [hstep]
      have hdone : done = [] := by
        have hf := inv.flat
        rw [hcols, hcur] at hf
        simp only [List.map_nil, List.flatten_nil, List.nil_append] at hf
        exact List.map_eq_nil_iff.mp hf.symm
      subst hdone
      refine ⟨?_, ?_, ?_, ?_, ?_, ?_, ?_⟩
      · simp
      · simpa using hrows
      · intro c hc
        simp only [List.mem_singleton] at hc
        subst hc
        rfl
      · intro _
        exact ⟨_, rfl⟩
      · intro h
        simp at h
      · simp
      · simp [List.chain'_singleton]
    · have hlen : s.currentColumn.length > 0 := List.length_pos.mpr hcur
      have hstep : trendStep typeKey rows s b =
          ⟨s.columns ++ [padColumn rows s.currentColumn], [cellOf typeKey b],
            some (axisKey typeKey b)⟩ := by
        simp only [trendStep]
        rw [if_pos hcond]
        simp [hlen]
      rw [hstep]
      obtain ⟨v, hv⟩ := inv.cur_some hcur
      have hcurpop : ∀ c ∈ s.currentColumn, c.type.isSome = true := by
        intro c hc
        rw [inv.cur_val c hc, hv]
        rfl
      have hpop : populated (padColumn rows s.currentColumn) = s.currentColumn :=
        populated_padColumn rows s.currentColumn hcurpop
      have hchunk : chunkValue s.currentColumn = s.lastVal := by
        rcases hcc : s.currentColumn with _ | ⟨c, cs⟩
        · exact absurd hcc hcur
        · have hcv := inv.cur_val c (by rw [hcc]; exact List.mem_cons_self c cs)
          simp [chunkValue, hcv]
      have hflatcols : ((s.columns ++ [padColumn rows s.currentColumn]).map populated).flatten =
          (s.columns.map populated).flatten ++ s.currentColumn := by
        rw [List.map_append, List.flatten_append]
        simp [hpop]
      refine ⟨?_, ?_, ?_, ?_, ?_, ?_, ?_⟩
      · intro col hcol
        rcases List.mem_append.mp hcol with h1 | h1
        · exact inv.cols_core col h1
        · simp only [List.mem_singleton] at h1
          subst h1
          exact ⟨s.currentColumn, hcur, inv.cur_le,
            ⟨v, fun c hc => by rw [inv.cur_val c hc, hv]⟩, rfl⟩
      · simpa using hrows
      · intro c hc
        simp only [List.mem_singleton] at hc
        subst hc
        rfl
      · intro _
        exact ⟨_, rfl⟩
      · intro h
        simp at h
      · rw [hflatcols, inv.flat, List.map_append]
        rfl
      · have hchain := inv.chain
        rw [if_neg (by simpa [List.isEmpty_iff] using hcur)] at hchain
        have hbreak : breakOK rows s.currentColumn [cellOf typeKey b] := by
          rcases hcond with h1 | h1
          · left
            rw [hchunk]
            intro hEq
            exact h1 (by simpa [chunkValue] using hEq.symm)
          · right
            have hle := inv.cur_le
            omega
        rw [List.map_append]
        simp only [List.map_cons, List.map_nil, hpop, List.isEmpty_cons, if_neg Bool.false_ne_true]
        rw [List.append_assoc]
        rw [List.chain'_append]
        refine ⟨?_, ?_, ?_⟩
        · exact (List.chain'_append.mp hchain).1
        · rw [List.chain'_append]
          refine ⟨List.chain'_singleton _, List.chain'_singleton _, ?_⟩
          intro x hx y hy
          simp only [List.getLast?_singleton, Option.mem_def, Option.some.injEq] at hx
          simp only [List.head?_cons, Option.mem_def, Option.some.injEq] at hy
          subst hx
          subst hy
          exact hbreak
        · intro x hx y hy
          have hlast := (List.chain'_append.mp hchain).2.2
          simp only [List.singleton_append, List.head?_cons, Option.mem_def,
            Option.some.injEq] at hy
          subst hy
          exact hlast x hx s.currentColumn (by simp)
  · push_neg at hcond
    obtain ⟨hval, hlt⟩ := hcond
    have hcur : s.currentColumn ≠ [] := by
      intro h
      obtain ⟨_, hlast⟩ := inv.empty_none h
      rw [hlast] at hval
      exact Option.noConfusion hval
    have hstep : trendStep typeKey rows s b =
        ⟨s.columns, s.currentColumn ++ [cellOf typeKey b], s.lastVal⟩ := by
      have hc : ¬ (some (axisKey typeKey b) ≠ s.lastVal ∨ rows ≤ s.currentColumn.length) := by
        push_neg
        exact ⟨hval, hlt⟩
      simp only [trendStep]
      rw [if_neg hc]
    rw [hstep]
    refine ⟨?_, ?_, ?_, ?_, ?_, ?_, ?_⟩
    · exact inv.cols_core
    · simp only [List.length_append, List.length_singleton]
      omega
    · intro c hc
      rcases List.mem_append.mp hc with h1 | h1
      · exact inv.cur_val c h1
      · simp only [List.mem_singleton] at h1
        subst h1
        exact hval.symm ▸ rfl
    · intro _
      exact inv.cur_some hcur
    · intro h
      simp at h
    · rw [← List.append_assoc, inv.flat, List.map_append]
      rfl
    · have hchain := inv.chain
      rw [if_neg (by simpa [List.isEmpty_iff] using hcur)] at hchain
      have hne : s.currentColumn ++ [cellOf typeKey b] ≠ [] := by
        simp
      rw [if_neg (by simp [List.isEmpty_iff])]
      rw [List.chain'_append] at hchain ⊢
      refine ⟨hchain.1, List.chain'_singleton _, ?_⟩
      intro x hx y hy
      simp only [List.head?_cons, Option.mem_def, Option.some.injEq] at hy
      subst hy
      have hb := hchain.2.2 x hx s.currentColumn (by simp)
      rcases hb with h1 | h1
      · left
        rw [chunkValue_append s.currentColumn _ hcur]
        exact h1
      · right
        exact h1

/-- The invariant survives the whole walk. -/
theorem TrendInv.foldl (typeKey : Axis) (rows : Nat) (hrows : 1 ≤ rows) :
    ∀ (l : List BlockData) (s : TrendState) (done : List BlockData),
      TrendInv typeKey rows s done →
      TrendInv typeKey rows (l.foldl (trendStep typeKey rows) s) (done ++ l) := by
  intro l
  induction l with
  | nil =>
    intro s done inv
    simpa using inv
  | cons x xs ih =>
    intro s done inv
    rw [List.foldl_cons, show done ++ x :: xs = (done ++ [x]) ++ xs by simp]
    exact ih (trendStep typeKey rows s x) (done ++ [x])
      (TrendInv.step typeKey rows hrows s done x inv)

/-- The invariant holds for the final state of the walk over the whole
chronological input. -/
theorem trendInv_final (typeKey : Axis) (rows : Nat) (hrows : 1 ≤ rows)
    (blocks : List BlockData) :
    TrendInv typeKey rows
      ((sortAscHeight blocks).foldl (trendStep typeKey rows) ⟨[], [], none⟩)
      (sortAscHeight blocks) := by
  have h := TrendInv.foldl typeKey rows hrows (sortAscHeight blocks) ⟨[], [], none⟩ []
    (TrendInv.init typeKey rows)
  simpa using h

/-- Flattening empty chunks gives nothing. -/
theorem flatten_replicate_nil (k : Nat) :
    (List.replicate k ([] : List GridCell)).flatten = [] := by
  induction k with
  | zero => rfl
  | succ n ih =>
    rw [List.replicate_succ, List.flatten_cons, ih]
    rfl

/-- C1: for any input and `rows ≥ 1`, every trend-grid column has exactly
`rows` cells; the grid has at least 24 columns; every column's populated
cells number at most `rows` and all carry one and the same classification
value; concatenating the populated cells column-by-column, top-to-bottom,
reproduces the ascending-height input's cells exactly; adjacent non-empty
column chunks meet the "new column exactly when the value differs or the
column is full" law; and the empty input yields 24 fully-empty columns of
`rows` cells each. -/
theorem trend_grid_spec (blocks : List BlockData) (a : Axis) (rows : Nat)
    (hrows : 1 ≤ rows) :
    (∀ col ∈ calculateTrendGrid blocks a rows, col.length = rows) ∧
    24 ≤ (calculateTrendGrid blocks a rows).length ∧
    (∀ col ∈ calculateTrendGrid blocks a rows,
      (populated col).length ≤ rows ∧
      ∀ c ∈ populated col, c.type ≠ none ∧ ∀ d ∈ populated col, c.type = d.type) ∧
    ((calculateTrendGrid blocks a rows).map populated).flatten =
      (sortAscHeight blocks).map (cellOf a) ∧
    List.Chain' (breakOK rows)
      (((calculateTrendGrid blocks a rows).map populated).filter (fun l => !l.isEmpty)) ∧
    (blocks = [] → calculateTrendGrid blocks a rows =
      List.replicate 24 (List.replicate rows emptyCell)) := by
  by_cases hb : blocks.length = 0
  · have hbe : blocks = [] := List.length_eq_zero.mp hb
    subst hbe
    have hgrid : calculateTrendGrid [] a rows =
        List.replicate 24 (List.replicate rows emptyCell) := rfl
    rw [hgrid]
    refine ⟨?_, ?_, ?_, ?_, ?_, ?_⟩
    · intro col hcol
      rw [List.eq_of_mem_replicate hcol]
      simp
    · simp
    · intro col hcol
      rw [List.eq_of_mem_replicate hcol, populated_emptyCol]
      simp
    · rw [List.map_replicate, populated_emptyCol, flatten_replicate_nil]
      simp [sortAscHeight]
    · rw [List.map_replicate, populated_emptyCol]
      simp
    · intro _
      rfl
  · have hslen : (sortAscHeight blocks).length ≠ 0 := by
      rw [(sortAscHeight_perm blocks).length_eq]
      exact hb
    have inv := trendInv_final a rows hrows blocks
    set s := (sortAscHeight blocks).foldl (trendStep a rows) ⟨[], [], none⟩ with hs
    have hcur : s.currentColumn ≠ [] := by
      intro h
      obtain ⟨hcols, _⟩ := inv.empty_none h
      have hf := inv.flat
      rw [hcols, h] at hf
      simp only [List.map_nil, List.flatten_nil, List.nil_append] at hf
      have : sortAscHeight blocks = [] := List.map_eq_nil_iff.mp hf.symm
      rw [this] at hslen
      exact hslen rfl
    have hlen0 : s.currentColumn.length > 0 := List.length_pos.mpr hcur
    obtain ⟨v, hv⟩ := inv.cur_some hcur
    have hcurpop : ∀ c ∈ s.currentColumn, c.type.isSome = true := by
      intro c hc
      rw [inv.cur_val c hc, hv]
      rfl
    have hpadpop : populated (padColumn rows s.currentColumn) = s.currentColumn :=
      populated_padColumn rows s.currentColumn hcurpop
    have hgrid : calculateTrendGrid blocks a rows =
        (s.columns ++ [padColumn rows s.currentColumn]) ++
          List.replicate (24 - (s.columns ++ [padColumn rows s.currentColumn]).length)
            (List.replicate rows emptyCell) := by
      unfold calculateTrendGrid
      rw [if_neg hb]
      simp only
      rw [← hs, if_pos hlen0]
    have hfinalpop : (s.columns ++ [padColumn rows s.currentColumn]).map populated =
        s.columns.map populated ++ [s.currentColumn] := by
      rw [List.map_append]
      simp [hpadpop]
    rw [hgrid]
    refine ⟨?_, ?_, ?_, ?_, ?_, ?_⟩
    · intro col hcol
      rcases List.mem_append.mp hcol with h1 | h1
      · rcases List.mem_append.mp h1 with h2 | h2
        · obtain ⟨core, _, hcle, _, hcol_eq⟩ := inv.cols_core col h2
          rw [hcol_eq]
          exact padColumn_length rows core hcle
        · simp only [List.mem_singleton] at h2
          subst h2
          exact padColumn_length rows s.currentColumn inv.cur_le
      · rw [List.eq_of_mem_replicate h1]
        simp
    · simp only [List.length_append, List.length_replicate]
      omega
    · intro col hcol
      rcases List.mem_append.mp hcol with h1 | h1
      · rcases List.mem_append.mp h1 with h2 | h2
        · obtain ⟨core, _, hcle, ⟨w, hw⟩, hcol_eq⟩ := inv.cols_core col h2
          have hcorepop : ∀ c ∈ core, c.type.isSome = true := by
            intro c hc
            rw [hw c hc]
            rfl
          rw [hcol_eq, populated_padColumn rows core hcorepop]
          refine ⟨hcle, ?_⟩
          intro c hc
          rw [hw c hc]
          exact ⟨Option.some_ne_none w, fun d hd => by rw [hw d hd]⟩
        · simp only [List.mem_singleton] at h2
          subst h2
          rw [hpadpop]
          refine ⟨inv.cur_le, ?_⟩
          intro c hc
          rw [inv.cur_val c hc, hv]
          exact ⟨Option.some_ne_none v, fun d hd => by rw [inv.cur_val d hd, hv]⟩
      · rw [List.eq_of_mem_replicate h1, populated_emptyCol]
        simp
    · rw [List.map_append, List.flatten_append, hfinalpop, List.map_replicate,
        populated_emptyCol, flatten_replicate_nil, List.append_nil, List.flatten_append]
      simpa using inv.flat
    · rw [List.map_append, List.filter_append, hfinalpop, List.map_replicate,
        populated_emptyCol]
      have hrep : (List.replicate (24 - (s.columns ++ [padColumn rows s.currentColumn]).length)
          ([] : List GridCell)).filter (fun l => !l.isEmpty) = [] := by
        simp [List.filter_replicate]
      rw [hrep, List.append_nil]
      have hself : (s.columns.map populated ++ [s.currentColumn]).filter
          (fun l => !l.isEmpty) = s.columns.map populated ++ [s.currentColumn] := by
        rw [List.filter_eq_self]
        intro l hl
        rcases List.mem_append.mp hl with h1 | h1
        · rw [List.mem_map] at h1
          obtain ⟨col, hcol, rfl⟩ := h1
          obtain ⟨core, hcne, _, ⟨w, hw⟩, hcol_eq⟩ := inv.cols_core col hcol
          have hcorepop : ∀ c ∈ core, c.type.isSome = true := by
            intro c hc
            rw [hw c hc]
            rfl
          rw [hcol_eq, populated_padColumn rows core hcorepop]
          simpa [List.isEmpty_iff] using hcne
        · simp only [List.mem_singleton] at h1
          subst h1
          simpa [List.isEmpty_iff] using hcur
      rw [hself]
      have hchain := inv.chain
      rw [if_neg (by simpa [List.isEmpty_iff] using hcur)] at hchain
      exact hchain
    · intro h
      subst h
      simp at hb

/-- Witness for C1 at the empty input with one row. -/
theorem trend_grid_spec_witness :
    (∀ col ∈ calculateTrendGrid [] Axis.parity 1, col.length = 1) ∧
    24 ≤ (calculateTrendGrid [] Axis.parity 1).length ∧
    (∀ col ∈ calculateTrendGrid [] Axis.parity 1,
      (populated col).length ≤ 1 ∧
      ∀ c ∈ populated col, c.type ≠ none ∧ ∀ d ∈ populated col, c.type = d.type) ∧
    ((calculateTrendGrid [] Axis.parity 1).map populated).flatten =
      (sortAscHeight []).map (cellOf Axis.parity) ∧
    List.Chain' (breakOK 1)
      (((calculateTrendGrid [] Axis.parity 1).map populated).filter
        (fun l => !l.isEmpty)) ∧
    (([] : List BlockData) = [] → calculateTrendGrid [] Axis.parity 1 =
      List.replicate 24 (List.replicate 1 emptyCell)) :=
  trend_grid_spec [] Axis.parity 1 (by omega)

end TronHash
